import Mathlib

/-!
Shallow embedding of `src/native/extypst_nif/src/lib.rs` (the ex_typst NIF):
a Typst `World` implementation backed by the operating system, font
discovery, path normalization, and the `compile` entry point.

External collaborators (the Typst compiler, the filesystem, the walkdir
crate, font parsing) are abstracted as an explicit environment `Env` of
pure functions; everything written in the repository itself is embedded
directly.  Rust control flow that can panic (`expect`, `unwrap`,
`unimplemented!`, out-of-bounds indexing) is made explicit through the
`RustResult` outcome type.
-/

/-- Outcome of running a piece of Rust code: a normal return, an early
return with an error value, or a panic. -/
inductive RustResult (α : Type) where
  | ok : α → RustResult α
  | err : String → RustResult α
  | panicked : String → RustResult α
deriving DecidableEq

/-- Model of `typst::syntax::FileId`: either an interned
(package, virtual path) pair produced by `FileId::new`, or the reserved
detached id used by `Source::detached`. -/
inductive FileId where
  | file : Option String → String → FileId
  | detached : FileId
deriving DecidableEq

/-- Model of `typst::syntax::Source`: a file id plus the full text. -/
structure Source where
  id : FileId
  text : String
deriving DecidableEq

/-- Model of `typst::syntax::Span` as far as this crate observes it:
`Span::id` is `none` for a detached span; `tag` distinguishes spans so the
environment's range functions can depend on the concrete span. -/
structure Span where
  id : Option FileId
  tag : Nat
deriving DecidableEq

/-- Model of one `typst::diag::Tracepoint` entry (`Spanned<Tracepoint>`):
the span and the display text of the point. -/
structure TracePoint where
  span : Span
  v : String
deriving DecidableEq

/-- Model of `typst::diag::SourceDiagnostic`: primary span, message and
causal trace. -/
structure SourceDiagnostic where
  span : Span
  message : String
  trace : List TracePoint
deriving DecidableEq

/-- Model of `typst::diag::FileError` (the variants this crate produces or
matches on). -/
inductive FileError where
  | notFound : String → FileError
  | accessDenied : FileError
  | isDirectory : FileError
  | notSource : FileError
  | other : Option String → FileError
deriving DecidableEq

/-- Display text of a `FileError`, used when `?` converts it into the
`StrResult` error of `compile`. -/
def fileErrorMsg : FileError → String
  | FileError.notFound p => "file not found (searched at " ++ p ++ ")"
  | FileError.accessDenied => "failed to load file (access denied)"
  | FileError.isDirectory => "failed to load file (is a directory)"
  | FileError.notSource => "not a source file"
  | FileError.other (some m) => m
  | FileError.other none => "failed to load file"

/-- Classified cause of an OS-level I/O failure, as seen by
`FileError::from_io`. -/
inductive IOErr where
  | notFound : IOErr
  | permissionDenied : IOErr
  | otherErr : IOErr
deriving DecidableEq

/-- Model of `FileError::from_io`: classify an I/O error for a given path. -/
def fromIo (e : IOErr) (path : String) : FileError :=
  match e with
  | IOErr.notFound => FileError.notFound path
  | IOErr.permissionDenied => FileError.accessDenied
  | IOErr.otherErr => FileError.other none

/-- Metadata of a filesystem entry, as far as `read` inspects it. -/
structure FsMeta where
  isDir : Bool
deriving DecidableEq

/-- A filesystem path as the font searcher observes it: the full textual
path plus the result of `path.extension().and_then(|s| s.to_str())`. -/
structure FsPath where
  full : String
  ext : Option String
deriving DecidableEq

/-- Model of `FontSlot`: location of one font record inside a file and the
lazily filled `OnceCell<Option<Font>>`.  A decoded font is abstracted as a
`Nat` token.  `cell = none` models the empty cell; `cell = some v` models a
filled cell holding the memoized outcome `v` (itself an `Option`). -/
structure FontSlot where
  path : FsPath
  index : Nat
  cell : Option (Option Nat)
deriving DecidableEq

/-- Model of `PathSlot` (canonical data for all paths pointing to the same
entity): two independent lazily filled cells. -/
structure PathSlot where
  src : Option (Except FileError FileId)
  buffer : Option (Except FileError (List Nat))

/-- Model of `SystemWorld`.  `library` and decoded documents are abstract
tokens; `book` is the ordered list of font metadata entries (`FontBook`);
the `hashes` and `paths` maps are association lists; the `FrozenVec` of
sources is an insertion-ordered list. -/
structure SystemWorld where
  root : String
  library : Nat
  book : List Nat
  fonts : List FontSlot
  hashes : List (FsPath × Except FileError Nat)
  paths : List (Nat × PathSlot)
  sources : List Source
  main : Source

/-- Model of `FontSearcher`: the font book under construction plus the
catalog of slots, which must stay in lock-step. -/
structure FontSearcher where
  book : List Nat
  fonts : List FontSlot
deriving DecidableEq

/-- The environment of external collaborators: the filesystem walk
(`WalkDir`, entries already filtered to `Ok` and sorted by file name),
`File::open` + `Mmap::map` + `FontInfo::iter` collapsed into one probe
returning `none` when open or mmap fails, `dirs::font_dir`, OS metadata
and read calls, `Font::new`, the span-to-range functions of `Source`, the
external Typst compiler and PDF exporter, and `typst_library::build`. -/
structure Env where
  walk : String → List FsPath
  openMmapInfos : FsPath → Option (List Nat)
  fontDir : Option String
  metadata : FsPath → Except IOErr FsMeta
  fsRead : FsPath → Except IOErr (List Nat)
  fontNew : List Nat → Nat → Option Nat
  rangeOf : Source → Span → Option (Nat × Nat)
  findRangeOf : Source → Span → Option (Nat × Nat)
  typstCompile : SystemWorld → Except (List SourceDiagnostic) Nat
  exportPdf : Nat → List Nat
  libraryBuild : Nat

/-- Model of `Source::detached`: a source with the reserved detached id. -/
def Source.detached (text : String) : Source :=
  { id := FileId.detached, text := text }

/-- Model of `World::main` for `SystemWorld`: clone of the active main
source. -/
def mainF (w : SystemWorld) : Source :=
  w.main

/-- Model of `World::source` for `SystemWorld`: linear scan of the frozen
source vector for the first source whose id equals the requested one,
`FileError::NotSource` when none matches. -/
def sourceF (w : SystemWorld) (id : FileId) : Except FileError Source :=
  match w.sources.find? (fun s => decide (s.id = id)) with
  | some s => Except.ok s
  | none => Except.error FileError.notSource

/-- Model of `World::file` for `SystemWorld`: the text of the registered
source, re-exposed as bytes. -/
def fileF (w : SystemWorld) (id : FileId) : Except FileError String :=
  match sourceF w id with
  | Except.ok s => Except.ok s.text
  | Except.error e => Except.error e

/-- Model of the free function `read`: check metadata, fail on
directories, otherwise read the file, classifying I/O errors. -/
def read (env : Env) (path : FsPath) : Except FileError (List Nat) :=
  match env.metadata path with
  | Except.error e => Except.error (fromIo e path.full)
  | Except.ok m =>
    if m.isDir then Except.error FileError.isDirectory
    else
      match env.fsRead path with
      | Except.error e => Except.error (fromIo e path.full)
      | Except.ok data => Except.ok data

/-- The closure passed to `OnceCell::get_or_init` in `World::font`: read
the slot's file (failures collapse to `none` through `.ok()?`) and decode
the sub-font at the slot's collection index. -/
def decodeSlot (env : Env) (slot : FontSlot) : Option Nat :=
  match read env slot.path with
  | Except.error _ => none
  | Except.ok data => env.fontNew data slot.index

/-- Model of `World::font` for `SystemWorld`.  `self.fonts[id]` is an
unchecked index, so an out-of-range id panics.  Otherwise the slot's
`OnceCell` is consulted: a filled cell is returned as-is with no I/O; an
empty cell triggers one read-and-decode whose outcome is stored and
returned.  The third component counts the file reads performed by this
call. -/
def font (env : Env) (w : SystemWorld) (id : Nat) :
    RustResult (Option Nat) × SystemWorld × Nat :=
  if h : id < w.fonts.length then
    match (w.fonts[id]).cell with
    | some v => (RustResult.ok v, w, 0)
    | none =>
      (RustResult.ok (decodeSlot env w.fonts[id]),
        { w with
            fonts := w.fonts.set id
              { w.fonts[id] with cell := some (decodeSlot env w.fonts[id]) } },
        1)
  else
    (RustResult.panicked "index out of bounds", w, 0)

/-- Model of `World::today` for `SystemWorld`: the body is
`unimplemented!()`, i.e. an unconditional panic. -/
def today (_w : SystemWorld) (_offset : Option Int) : RustResult (Option Nat) :=
  RustResult.panicked "not implemented"

/-- Model of `SystemWorld::insert`: make the interned file id for the
virtual path, append a new source to the registry, return the id. -/
def insertS (w : SystemWorld) (path : String) (text : String) :
    FileId × SystemWorld :=
  let id := FileId.file none path
  (id, { w with sources := w.sources ++ [Source.mk id text] })

/-- Model of `SystemWorld::reset`: clear the source registry and both
cache maps, leave everything else alone. -/
def reset (w : SystemWorld) : SystemWorld :=
  { w with sources := [], hashes := [], paths := [] }

/-- Panic message of the `expect` on the primary diagnostic span's id. -/
def spanExpectMsg : String := "the span must reference a fileid"

/-- Panic message of the `expect` on the primary diagnostic's range. -/
def rangeExpectMsg : String := "catches an extra check using find"

/-- Panic message of `Option::unwrap` on `None` (the trace `find` call). -/
def unwrapNoneMsg : String := "called unwrap on a None value"

/-- Formatting of one diagnostic's trace points, accumulating onto the
error message.  A trace span with no file id becomes
`FileError::Other("is detached")` which the enclosing `?` turns into an
early error return; a trace span whose id is not a registered source
propagates that lookup error; a trace span that cannot be found in its
source panics through `unwrap`. -/
def formatTrace (env : Env) (w : SystemWorld) :
    List TracePoint → String → RustResult String
  | [], acc => RustResult.ok acc
  | p :: ps, acc =>
    match p.span.id with
    | none => RustResult.err (fileErrorMsg (FileError.other (some "is detached")))
    | some id =>
      match sourceF w id with
      | Except.error e => RustResult.err (fileErrorMsg e)
      | Except.ok src =>
        match env.findRangeOf src p.span with
        | none => RustResult.panicked unwrapNoneMsg
        | some r =>
          formatTrace env w ps
            (acc ++ "  " ++ toString r.1 ++ ":" ++ toString r.2 ++ " " ++ p.v)

/-- Formatting of the compiler's diagnostic list (the `Err` branch of
`SystemWorld::compile`).  A primary span with no file id panics through
`expect`; an unregistered id propagates the lookup error through `?`; a
primary span with no resolvable range panics through the second `expect`;
otherwise the range and message are appended, a `stacktrace:` header is
added when the trace is nonempty, and the trace is formatted. -/
def formatErrors (env : Env) (w : SystemWorld) :
    List SourceDiagnostic → String → RustResult String
  | [], acc => RustResult.ok acc
  | d :: ds, acc =>
    match d.span.id with
    | none => RustResult.panicked spanExpectMsg
    | some id =>
      match sourceF w id with
      | Except.error e => RustResult.err (fileErrorMsg e)
      | Except.ok src =>
        match env.rangeOf src d.span with
        | none => RustResult.panicked rangeExpectMsg
        | some r =>
          let acc1 := acc ++ toString r.1 ++ ":" ++ toString r.2 ++ " " ++ d.message
          let acc2 := if d.trace.isEmpty then acc1 else acc1 ++ "stacktrace:\n"
          match formatTrace env w d.trace acc2 with
          | RustResult.ok acc3 => formatErrors env w ds acc3
          | RustResult.err m => RustResult.err m
          | RustResult.panicked m => RustResult.panicked m

/-- Body of `SystemWorld::compile` after the initial `self.reset()`:
register the markup under the fixed virtual name, set it as main, run the
external compiler, export on success, format diagnostics on failure.  A
formatting run that completes yields the accumulated message as the `Err`
value of `compile`; an early error return inside formatting also becomes
an `Err` of `compile`; a panic stays a panic. -/
def compileAfterReset (env : Env) (w : SystemWorld) (markup : String) :
    RustResult (List Nat) × SystemWorld :=
  let p := insertS w "MARKUP.tsp" markup
  match sourceF p.2 p.1 with
  | Except.error e => (RustResult.err (fileErrorMsg e), p.2)
  | Except.ok src =>
    let w1 := { p.2 with main := src }
    match env.typstCompile w1 with
    | Except.ok doc => (RustResult.ok (env.exportPdf doc), w1)
    | Except.error errors =>
      match formatErrors env w1 errors "compile error:\n" with
      | RustResult.ok msg => (RustResult.err msg, w1)
      | RustResult.err m => (RustResult.err m, w1)
      | RustResult.panicked m => (RustResult.panicked m, w1)

/-- Model of `SystemWorld::compile`: the first statement is an
unconditional `self.reset()`, then the rest of the body runs. -/
def compile (env : Env) (w : SystemWorld) (markup : String) :
    RustResult (List Nat) × SystemWorld :=
  compileAfterReset env (reset w) markup

/-- The extension guard of `FontSearcher::search_dir`: a faithful
rendering of the `matches!` over the eight literal spellings. -/
def isFontCandidate : Option String → Bool
  | none => false
  | some e =>
    e == "ttf" || e == "otf" || e == "TTF" || e == "OTF" ||
    e == "ttc" || e == "otc" || e == "TTC" || e == "OTC"

/-- Model of `FontSearcher::new`: empty book, empty catalog. -/
def FontSearcher.new : FontSearcher :=
  { book := [], fonts := [] }

/-- Model of `FontSearcher::search_file`: open and memory-map the file
(both failures skip silently), then push every extracted font record onto
the book and, in lock-step, a slot with the enumeration index onto the
catalog. -/
def searchFile (env : Env) (st : FontSearcher) (p : FsPath) : FontSearcher :=
  match env.openMmapInfos p with
  | none => st
  | some infos =>
    infos.enum.foldl
      (fun st pr =>
        { book := st.book ++ [pr.2],
          fonts := st.fonts ++ [{ path := p, index := pr.1, cell := none }] })
      st

/-- Model of `FontSearcher::search_dir`: walk the directory and hand every
entry whose extension passes the guard to `search_file`. -/
def searchDir (env : Env) (st : FontSearcher) (dir : String) : FontSearcher :=
  (env.walk dir).foldl
    (fun st p => if isFontCandidate p.ext then searchFile env st p else st) st

/-- Model of `FontSearcher::search_system` (unix, non-macOS build): the
two fixed directories, then the user font directory when present. -/
def searchSystem (env : Env) (st : FontSearcher) : FontSearcher :=
  let s1 := searchDir env st "/usr/share/fonts"
  let s2 := searchDir env s1 "/usr/local/share/fonts"
  match env.fontDir with
  | some d => searchDir env s2 d
  | none => s2

/-- One call into the font searcher, for reasoning about arbitrary
sequences of discovery calls. -/
inductive FsAction where
  | sys : FsAction
  | dir : String → FsAction
  | file : FsPath → FsAction

/-- Run a sequence of discovery calls against a searcher state. -/
def runSearch (env : Env) (st : FontSearcher) (acts : List FsAction) :
    FontSearcher :=
  acts.foldl
    (fun st a =>
      match a with
      | FsAction.sys => searchSystem env st
      | FsAction.dir d => searchDir env st d
      | FsAction.file p => searchFile env st p)
    st

/-- The (book entry, catalog slot) record pairs that one `search_file`
call contributes: one pair per extracted font record. -/
def fileRecords (env : Env) (p : FsPath) : List (Nat × FontSlot) :=
  match env.openMmapInfos p with
  | none => []
  | some infos =>
    infos.enum.map (fun pr => (pr.2, { path := p, index := pr.1, cell := none }))

/-- The record pairs one `search_dir` call contributes. -/
def dirRecords (env : Env) (d : String) : List (Nat × FontSlot) :=
  ((env.walk d).filter (fun p => isFontCandidate p.ext)).flatMap (fileRecords env)

/-- The record pairs one `search_system` call contributes. -/
def sysRecords (env : Env) : List (Nat × FontSlot) :=
  dirRecords env "/usr/share/fonts" ++ dirRecords env "/usr/local/share/fonts" ++
    (match env.fontDir with
     | some d => dirRecords env d
     | none => [])

/-- The record pairs one discovery call contributes. -/
def actRecords (env : Env) : FsAction → List (Nat × FontSlot)
  | FsAction.sys => sysRecords env
  | FsAction.dir d => dirRecords env d
  | FsAction.file p => fileRecords env p

/-- The record pairs a whole sequence of discovery calls contributes. -/
def seqRecords (env : Env) (acts : List FsAction) : List (Nat × FontSlot) :=
  acts.flatMap (actRecords env)

/-- Model of `SystemWorld::new`: run system font discovery, then the extra
directories, then the extra files; start with empty caches, an empty
source registry and the synthetic detached main source. -/
def SystemWorld.new (env : Env) (root : String) (fontPaths : List String)
    (fontFiles : List FsPath) : SystemWorld :=
  let s1 := searchSystem env FontSearcher.new
  let s2 := fontPaths.foldl (fun s p => searchDir env s p) s1
  let s3 := fontFiles.foldl (fun s p => searchFile env s p) s2
  { root := root, library := env.libraryBuild, book := s3.book,
    fonts := s3.fonts, hashes := [], paths := [], sources := [],
    main := Source.detached "detached" }

/-- Model of `std::path::Component`, restricted to the unix variants the
crate can encounter (Windows prefixes are out of scope). -/
inductive Component where
  | rootDir : Component
  | curDir : Component
  | parentDir : Component
  | normal : String → Component
deriving DecidableEq

/-- Model of `PathBuf::push` of a single component: pushing the absolute
root component replaces the whole path, anything else appends. -/
def pathPush (out : List Component) (c : Component) : List Component :=
  match c with
  | Component.rootDir => [Component.rootDir]
  | _ => out ++ [c]

/-- One iteration of the `normalize` loop: drop `.`, resolve `..` against
a trailing normal component by popping it and push it otherwise, push
everything else. -/
def normStep (out : List Component) (c : Component) : List Component :=
  match c with
  | Component.curDir => out
  | Component.parentDir =>
    match out.getLast? with
    | some (Component.normal _) => out.dropLast
    | _ => pathPush out Component.parentDir
  | _ => pathPush out c

/-- Model of the free function `normalize` (code carried over from typst
v0.4.0): fold the step over the path's components starting from the empty
path.  Named `normalizePath` because Mathlib already owns `normalize`. -/
def normalizePath (path : List Component) : List Component :=
  path.foldl normStep []

/-- The slot cell stored at catalog index `i`, `none` when the index is
out of range. -/
def cellAt (w : SystemWorld) (i : Nat) : Option (Option Nat) :=
  match w.fonts[i]? with
  | some s => s.cell
  | none => none

/-- Number of file reads that a sequence of `font` calls performs on
behalf of catalog index `i`. -/
def readsAt (env : Env) (i : Nat) : SystemWorld → List Nat → Nat
  | _, [] => 0
  | w, j :: js =>
    (if j = i then (font env w j).2.2 else 0) + readsAt env i (font env w j).2.1 js

/-- Whether a Rust outcome is an early `Err` return (as opposed to a
normal return or a panic). -/
def isErr {α : Type} : RustResult α → Bool
  | RustResult.err _ => true
  | _ => false

/-- A world with no fonts, no sources and empty caches. -/
def w0 : SystemWorld :=
  { root := ".", library := 0, book := [], fonts := [], hashes := [],
    paths := [], sources := [], main := Source.detached "detached" }

/-- An inert environment: empty filesystem, failing reads, no fonts, a
compiler that rejects everything with an empty diagnostic list. -/
def env0 : Env :=
  { walk := fun _ => [], openMmapInfos := fun _ => none, fontDir := none,
    metadata := fun _ => Except.error IOErr.notFound,
    fsRead := fun _ => Except.error IOErr.notFound,
    fontNew := fun _ _ => none,
    rangeOf := fun _ _ => none, findRangeOf := fun _ _ => none,
    typstCompile := fun _ => Except.error [], exportPdf := fun _ => [],
    libraryBuild := 0 }

/-- A diagnostic whose primary span is detached (no file id). -/
def dDetached : SourceDiagnostic :=
  { span := { id := none, tag := 0 }, message := "boom", trace := [] }

/-- An environment whose compiler rejects every document with a single
diagnostic carrying a detached primary span. -/
def envDetached : Env :=
  { env0 with typstCompile := fun _ => Except.error [dDetached] }

/-- A path whose extension is a mixed-case spelling of ttf. -/
def pTtf : FsPath :=
  { full := "fonts/a.Ttf", ext := some "Ttf" }

/-- An environment whose directory walk yields exactly the mixed-case
font file and whose probe extracts one font record from any file. -/
def envTtf : Env :=
  { env0 with walk := fun _ => [pTtf], openMmapInfos := fun _ => some [7] }

/-- An environment whose reads succeed and whose decoder returns the
slot's collection index. -/
def envFont : Env :=
  { env0 with
    metadata := fun _ => Except.ok (FsMeta.mk false)
    fsRead := fun _ => Except.ok [1, 2, 3]
    fontNew := fun _ i => some i }

/-- A world with a single undecoded font slot. -/
def wFont : SystemWorld :=
  { w0 with fonts := [{ path := pTtf, index := 0, cell := none }] }

/-- First of two registered sources, with its own interned id. -/
def srcA : Source := { id := FileId.file none "a.typ", text := "A" }

/-- Second registered source, the one the linear scan should find. -/
def srcB : Source := { id := FileId.file none "b.typ", text := "B" }

/-- A world whose registry holds the two sources in insertion order. -/
def wAB : SystemWorld :=
  { w0 with sources := [srcA, srcB] }

theorem foldl_filter_eq {α β : Type} (p : α → Bool) (f : β → α → β)
    (l : List α) (b : β) :
    (l.filter p).foldl f b = l.foldl (fun x y => if p y then f x y else x) b := by
  induction l generalizing b with
  | nil => rfl
  | cons a l ih =>
    by_cases h : p a = true
    · simp [List.filter_cons, h, ih]
    · simp [List.filter_cons, h, ih]

theorem find_first_aux (id : FileId) (pre : List Source) (s : Source)
    (post : List Source) (hs : s.id = id) (hpre : ∀ t ∈ pre, t.id ≠ id) :
    (pre ++ s :: post).find? (fun t => decide (t.id = id)) = some s := by
  induction pre with
  | nil =>
    simp only [List.nil_append]
    exact List.find?_cons_of_pos _ (by simp [hs])
  | cons a as ih =>
    have ha : a.id ≠ id := hpre a (by simp)
    rw [List.cons_append, List.find?_cons_of_neg _ (by simp [ha])]
    exact ih (fun t ht => hpre t (by simp [ht]))

theorem find_none_aux (id : FileId) (l : List Source)
    (h : ∀ t ∈ l, t.id ≠ id) :
    l.find? (fun t => decide (t.id = id)) = none := by
  apply List.find?_eq_none.mpr
  intro x hx
  simp [h x hx]

/-- Claim C3 (amended): the current-date accessor never returns to its
caller: for every offset it panics with the unimplemented-operation
message, so it never produces a date value and never produces the absence
value either. -/
theorem today_always_panics (w : SystemWorld) (off : Option Int) (v : Option Nat) :
    today w off = RustResult.panicked "not implemented" ∧
      today w off ≠ RustResult.ok v :=
  ⟨rfl, by simp [today]⟩

/-- Claim C3 counterexample: on a concrete world with offset `none`,
`today` panics; it does not return the absence outcome `none` (nor any
other value) to its caller, refuting the claim that it returns a
failure/absence outcome. -/
theorem today_counterexample :
    today w0 none = RustResult.panicked "not implemented" ∧
      today w0 none ≠ RustResult.ok none :=
  ⟨rfl, by simp [today]⟩

/-- Claim C4: `compile` begins with an unconditional `reset`, which
clears the source registry, the path-to-hash cache and the hash-to-slot
cache, leaves the font catalog, font book, library and root unchanged,
and after which looking up any file id through the source accessor fails
with the not-a-registered-source error. -/
theorem compile_reset_isolation (env : Env) (w : SystemWorld) (m : String)
    (id : FileId) :
    compile env w m = compileAfterReset env (reset w) m ∧
      (reset w).sources = [] ∧ (reset w).hashes = [] ∧ (reset w).paths = [] ∧
      (reset w).fonts = w.fonts ∧ (reset w).book = w.book ∧
      (reset w).library = w.library ∧ (reset w).root = w.root ∧
      sourceF (reset w) id = Except.error FileError.notSource :=
  ⟨rfl, rfl, rfl, rfl, rfl, rfl, rfl, rfl, rfl⟩

/-- Claim C10: a freshly constructed world's main accessor returns the
synthetic detached source built from the text "detached", the source
registry is empty, and looking up the main source's id through the source
accessor fails with the not-a-registered-source error. -/
theorem new_world_detached_main (env : Env) (root : String)
    (fontPaths : List String) (fontFiles : List FsPath) :
    mainF (SystemWorld.new env root fontPaths fontFiles) =
        Source.detached "detached" ∧
      (SystemWorld.new env root fontPaths fontFiles).sources = [] ∧
      sourceF (SystemWorld.new env root fontPaths fontFiles)
          (mainF (SystemWorld.new env root fontPaths fontFiles)).id =
        Except.error FileError.notSource :=
  ⟨rfl, rfl, rfl⟩

/-- Claim C7: the source-by-identity accessor scans the registry in
insertion order and returns the first registered source whose id equals
the requested one; when no registered source matches it fails with the
distinct `FileError::NotSource`, and indeed every error it can return is
`NotSource`, never an I/O-style error. -/
theorem source_linear_scan (w : SystemWorld) (id : FileId) (pre : List Source)
    (s : Source) (post : List Source) :
    (w.sources = pre ++ s :: post → s.id = id → (∀ t ∈ pre, t.id ≠ id) →
        sourceF w id = Except.ok s) ∧
      ((∀ t ∈ w.sources, t.id ≠ id) →
        sourceF w id = Except.error FileError.notSource) ∧
      (∀ e, sourceF w id = Except.error e → e = FileError.notSource) := by
  refine ⟨?_, ?_, ?_⟩
  · intro hw hs hpre
    unfold sourceF
    rw [hw, find_first_aux id pre s post hs hpre]
  · intro h
    unfold sourceF
    rw [find_none_aux id w.sources h]
  · intro e he
    unfold sourceF at he
    cases hf : w.sources.find? (fun t => decide (t.id = id)) with
    | some t => rw [hf] at he; cases he
    | none =>
      rw [hf] at he
      have := Except.error.inj he
      exact this.symm

/-- Witness for C7: in a registry holding two sources, looking up the
second one's id skips the first source and returns the second. -/
theorem source_linear_scan_witness :
    sourceF wAB (FileId.file none "b.typ") = Except.ok srcB :=
  (source_linear_scan wAB (FileId.file none "b.typ") [srcA] srcB []).1 rfl rfl
    (by decide)

/-- Claim C9: the font accessor indexes the catalog without a bounds
check: for every id at or beyond the catalog length the call panics
(leaving the world unchanged) instead of returning absence, while for
every id below the catalog length it returns normally. -/
theorem font_index_bounds (env : Env) (w : SystemWorld) (i : Nat) :
    (w.fonts.length ≤ i →
        (font env w i).1 = RustResult.panicked "index out of bounds" ∧
          (font env w i).2.1 = w) ∧
      (i < w.fonts.length → ∃ v, (font env w i).1 = RustResult.ok v) := by
  constructor
  · intro hle
    have h : ¬ i < w.fonts.length := by omega
    simp [font, h]
  · intro hlt
    unfold font
    rw [dif_pos hlt]
    cases hc : (w.fonts[i]).cell with
    | some v => exact ⟨v, by simp [hc]⟩
    | none => exact ⟨decodeSlot env w.fonts[i], by simp [hc]⟩

/-- Witness for C9: on a world whose catalog is empty, `font` at index 0
panics and leaves the world unchanged. -/
theorem font_index_bounds_witness :
    (font env0 w0 0).1 = RustResult.panicked "index out of bounds" ∧
      (font env0 w0 0).2.1 = w0 :=
  (font_index_bounds env0 w0 0).1 (by decide)

/-- Claim C1 (amended): during diagnostic formatting, a trace span with
no file identity is surfaced as the "is detached" error value, and a span
whose file identity is not a registered source is surfaced as that lookup
error value; but a primary span with no file identity panics through
`expect`, as does a primary span whose range cannot be resolved — these
crash rather than returning an error value.  No diagnostic is silently
dropped. -/
theorem formatErrors_detached_spec (env : Env) (w : SystemWorld)
    (d : SourceDiagnostic) (ds : List SourceDiagnostic) (acc : String)
    (id : FileId) (src : Source) (e : FileError) (p : TracePoint)
    (ps : List TracePoint) :
    (d.span.id = none →
        formatErrors env w (d :: ds) acc = RustResult.panicked spanExpectMsg) ∧
      (d.span.id = some id → sourceF w id = Except.error e →
        formatErrors env w (d :: ds) acc = RustResult.err (fileErrorMsg e)) ∧
      (d.span.id = some id → sourceF w id = Except.ok src →
        env.rangeOf src d.span = none →
        formatErrors env w (d :: ds) acc = RustResult.panicked rangeExpectMsg) ∧
      (p.span.id = none →
        formatTrace env w (p :: ps) acc =
          RustResult.err (fileErrorMsg (FileError.other (some "is detached")))) ∧
      (p.span.id = some id → sourceF w id = Except.error e →
        formatTrace env w (p :: ps) acc = RustResult.err (fileErrorMsg e)) := by
  refine ⟨?_, ?_, ?_, ?_, ?_⟩
  · intro h1
    simp [formatErrors, h1]
  · intro h1 h2
    simp [formatErrors, h1, h2]
  · intro h1 h2 h3
    simp [formatErrors, h1, h2, h3]
  · intro h1
    simp [formatTrace, h1]
  · intro h1 h2
    simp [formatTrace, h1, h2]

/-- Witness for C1 (amended): a single trace point with a detached span
is formatted into the "is detached" early error return. -/
theorem formatErrors_detached_spec_witness :
    formatTrace env0 w0 [TracePoint.mk (Span.mk none 0) "t"] "" =
      RustResult.err (fileErrorMsg (FileError.other (some "is detached"))) :=
  (formatErrors_detached_spec env0 w0 dDetached [] "" FileId.detached
      (Source.detached "detached") FileError.notSource
      (TracePoint.mk (Span.mk none 0) "t") []).2.2.2.1 rfl

/-- Claim C1 counterexample: with a compiler that reports one diagnostic
whose primary span has no file identity, `compile` panics instead of
returning an error value. -/
theorem compile_detached_counterexample :
    (compile envDetached w0 "hello").1 = RustResult.panicked spanExpectMsg ∧
      isErr (compile envDetached w0 "hello").1 = false :=
  ⟨rfl, rfl⟩

/-- Claim C2 (amended): `search_dir` hands a walked entry to
`search_file` exactly when its extension passes the literal-spelling
guard, and the guard accepts precisely the four all-lowercase and the
four all-uppercase spellings of ttf/otf/ttc/otc (so mixed-case spellings
are rejected), and no extension at all is rejected. -/
theorem search_dir_extension_filter (env : Env) (st : FontSearcher)
    (dir : String) (e : String) :
    searchDir env st dir =
        ((env.walk dir).filter (fun p => isFontCandidate p.ext)).foldl
          (searchFile env) st ∧
      (isFontCandidate (some e) = true ↔
        (e = "ttf" ∨ e = "otf" ∨ e = "TTF" ∨ e = "OTF" ∨
          e = "ttc" ∨ e = "otc" ∨ e = "TTC" ∨ e = "OTC")) ∧
      isFontCandidate none = false := by
  refine ⟨?_, ?_, rfl⟩
  · unfold searchDir
    rw [foldl_filter_eq]
  · simp only [isFontCandidate, Bool.or_eq_true, beq_iff_eq]
    tauto

/-- Claim C2 counterexample: a walked file with the mixed-case extension
"Ttf" is not handed to `search_file` (the searcher state stays empty),
even though handing that very file to `search_file` in the same
environment would index one font; yet lowercasing the extension
character-wise yields "ttf", so a case-insensitive filter would have
accepted it. -/
theorem search_dir_mixed_case_counterexample :
    (searchDir envTtf FontSearcher.new "fonts").fonts.length = 0 ∧
      (searchFile envTtf FontSearcher.new pTtf).fonts.length = 1 ∧
      "Ttf".data.map Char.toLower = "ttf".data ∧
      isFontCandidate (some "Ttf") = false :=
  ⟨rfl, rfl, by decide, by decide⟩

theorem push_foldl_aux (p : FsPath) (l : List (Nat × Nat)) (st : FontSearcher) :
    l.foldl
        (fun st pr =>
          { book := st.book ++ [pr.2],
            fonts := st.fonts ++ [{ path := p, index := pr.1, cell := none }] })
        st =
      { book := st.book ++ l.map (fun pr => pr.2),
        fonts := st.fonts ++ l.map (fun pr => FontSlot.mk p pr.1 none) } := by
  induction l generalizing st with
  | nil => simp
  | cons a l ih => simp [ih, List.append_assoc]

theorem searchFile_records (env : Env) (st : FontSearcher) (p : FsPath) :
    searchFile env st p =
      { book := st.book ++ (fileRecords env p).map Prod.fst,
        fonts := st.fonts ++ (fileRecords env p).map Prod.snd } := by
  unfold searchFile fileRecords
  cases env.openMmapInfos p with
  | none => simp
  | some infos =>
    dsimp only
    rw [push_foldl_aux]
    refine congrArg₂ FontSearcher.mk (congrArg _ ?_) (congrArg _ ?_)
    · rw [List.map_map]; rfl
    · rw [List.map_map]; rfl

theorem foldl_searchFile_records (env : Env) (ps : List FsPath)
    (st : FontSearcher) :
    ps.foldl (searchFile env) st =
      { book := st.book ++ (ps.flatMap (fileRecords env)).map Prod.fst,
        fonts := st.fonts ++ (ps.flatMap (fileRecords env)).map Prod.snd } := by
  induction ps generalizing st with
  | nil => simp
  | cons a ps ih =>
    rw [List.foldl_cons, ih, searchFile_records]
    simp [List.append_assoc]

theorem searchDir_records (env : Env) (st : FontSearcher) (d : String) :
    searchDir env st d =
      { book := st.book ++ (dirRecords env d).map Prod.fst,
        fonts := st.fonts ++ (dirRecords env d).map Prod.snd } := by
  unfold searchDir dirRecords
  rw [← foldl_filter_eq, foldl_searchFile_records]

theorem searchSystem_records (env : Env) (st : FontSearcher) :
    searchSystem env st =
      { book := st.book ++ (sysRecords env).map Prod.fst,
        fonts := st.fonts ++ (sysRecords env).map Prod.snd } := by
  unfold searchSystem sysRecords
  cases env.fontDir with
  | none => simp [searchDir_records, List.append_assoc]
  | some d => simp [searchDir_records, List.append_assoc]

theorem runSearch_records (env : Env) (acts : List FsAction)
    (st : FontSearcher) :
    runSearch env st acts =
      { book := st.book ++ (seqRecords env acts).map Prod.fst,
        fonts := st.fonts ++ (seqRecords env acts).map Prod.snd } := by
  induction acts generalizing st with
  | nil => simp [runSearch, seqRecords]
  | cons a acts ih =>
    have hstep :
        (match a with
          | FsAction.sys => searchSystem env st
          | FsAction.dir d => searchDir env st d
          | FsAction.file p => searchFile env st p) =
          { book := st.book ++ (actRecords env a).map Prod.fst,
            fonts := st.fonts ++ (actRecords env a).map Prod.snd } := by
      cases a with
      | sys => exact searchSystem_records env st
      | dir d => exact searchDir_records env st d
      | file p => exact searchFile_records env st p
    unfold runSearch at ih ⊢
    rw [List.foldl_cons, hstep, ih]
    simp [seqRecords, List.flatMap_cons, List.append_assoc]

/-- Claim C8: font discovery keeps the catalog and the book in lock-step:
after any sequence of discovery calls starting from a fresh searcher, the
book and the catalog are the first and second projections of one shared
list of discovered records (so they have equal length and index i of one
corresponds to index i of the other), and each `search_file` call appends
exactly one book entry and one slot per extracted font record. -/
theorem font_catalog_lockstep (env : Env) (acts : List FsAction) :
    (runSearch env FontSearcher.new acts).book =
        (seqRecords env acts).map Prod.fst ∧
      (runSearch env FontSearcher.new acts).fonts =
        (seqRecords env acts).map Prod.snd ∧
      (runSearch env FontSearcher.new acts).book.length =
        (runSearch env FontSearcher.new acts).fonts.length ∧
      ∀ st p, (searchFile env st p).book.length =
          st.book.length + (fileRecords env p).length ∧
        (searchFile env st p).fonts.length =
          st.fonts.length + (fileRecords env p).length := by
  have h := runSearch_records env acts FontSearcher.new
  refine ⟨?_, ?_, ?_, ?_⟩
  · rw [h]; rfl
  · rw [h]; rfl
  · rw [h]; simp [FontSearcher.new]
  · intro st p
    rw [searchFile_records]
    simp

theorem normStep_append_pre (pre out : List Component) (c : Component)
    (hpre : ∀ x ∈ pre, x = Component.parentDir) (hc : c ≠ Component.rootDir) :
    normStep (pre ++ out) c = pre ++ normStep out c := by
  cases c with
  | rootDir => exact absurd rfl hc
  | curDir => rfl
  | normal s => simp [normStep, pathPush]
  | parentDir =>
    cases out with
    | nil =>
      rw [List.append_nil]
      cases hpl : pre.getLast? with
      | none => simp [normStep, hpl, pathPush]
      | some x =>
        have hx : x = Component.parentDir :=
          hpre x (List.mem_of_mem_getLast? hpl)
        subst hx
        simp [normStep, hpl, pathPush]
    | cons o os =>
      cases hlo : (o :: os).getLast? with
      | none => simp at hlo
      | some x =>
        have hgl : (pre ++ o :: os).getLast? = some x := by
          rw [List.getLast?_append, hlo]
          rfl
        cases x with
        | normal s =>
          simp only [normStep, hgl, hlo]
          exact List.dropLast_append_of_ne_nil pre (by simp)
        | rootDir => simp [normStep, hgl, hlo, pathPush]
        | curDir => simp [normStep, hgl, hlo, pathPush]
        | parentDir => simp [normStep, hgl, hlo, pathPush]

theorem foldl_normStep_pre : ∀ (cs : List Component) (pre out : List Component),
    (∀ x ∈ pre, x = Component.parentDir) → Component.rootDir ∉ cs →
    List.foldl normStep (pre ++ out) cs = pre ++ List.foldl normStep out cs := by
  intro cs pre
  induction cs with
  | nil => intro out _ _; rfl
  | cons c cs ih =>
    intro out hpre hcs
    have hc : c ≠ Component.rootDir := fun h => hcs (by simp [h])
    rw [List.foldl_cons, List.foldl_cons, normStep_append_pre pre out c hpre hc]
    exact ih (normStep out c) hpre (fun h => hcs (List.mem_cons_of_mem c h))

theorem foldl_normStep_replicate : ∀ (n : Nat) (out : List Component),
    (∀ x ∈ out, x = Component.parentDir) →
    List.foldl normStep out (List.replicate n Component.parentDir) =
      out ++ List.replicate n Component.parentDir := by
  intro n
  induction n with
  | zero => intro out _; simp
  | succ n ih =>
    intro out hout
    rw [List.replicate_succ, List.foldl_cons]
    have hstep : normStep out Component.parentDir =
        out ++ [Component.parentDir] := by
      cases hpl : out.getLast? with
      | none => simp [normStep, hpl, pathPush]
      | some x =>
        have hx : x = Component.parentDir := hout x (List.mem_of_mem_getLast? hpl)
        subst hx
        simp [normStep, hpl, pathPush]
    have hall : ∀ x ∈ out ++ [Component.parentDir], x = Component.parentDir := by
      intro x hx
      rcases List.mem_append.mp hx with h | h
      · exact hout x h
      · simpa using h
    rw [hstep, ih (out ++ [Component.parentDir]) hall, List.append_assoc]
    rfl

theorem curDir_not_mem_normStep (out : List Component) (c : Component)
    (h : Component.curDir ∉ out) : Component.curDir ∉ normStep out c := by
  cases c with
  | curDir => exact h
  | rootDir => simp [normStep, pathPush]
  | normal s =>
    simp only [normStep, pathPush]
    intro hmem
    rcases List.mem_append.mp hmem with h1 | h1
    · exact h h1
    · simp at h1
  | parentDir =>
    cases hpl : out.getLast? with
    | none =>
      simp only [normStep, hpl, pathPush]
      intro hmem
      rcases List.mem_append.mp hmem with h1 | h1
      · exact h h1
      · simp at h1
    | some x =>
      cases x with
      | normal s =>
        simp only [normStep, hpl]
        intro hmem
        exact h ((List.dropLast_sublist out).subset hmem)
      | rootDir =>
        simp only [normStep, hpl, pathPush]
        intro hmem
        rcases List.mem_append.mp hmem with h1 | h1
        · exact h h1
        · simp at h1
      | curDir =>
        simp only [normStep, hpl, pathPush]
        intro hmem
        rcases List.mem_append.mp hmem with h1 | h1
        · exact h h1
        · simp at h1
      | parentDir =>
        simp only [normStep, hpl, pathPush]
        intro hmem
        rcases List.mem_append.mp hmem with h1 | h1
        · exact h h1
        · simp at h1

theorem curDir_not_mem_foldl : ∀ (cs out : List Component),
    Component.curDir ∉ out →
    Component.curDir ∉ List.foldl normStep out cs := by
  intro cs
  induction cs with
  | nil => intro out h; exact h
  | cons c cs ih =>
    intro out h
    rw [List.foldl_cons]
    exact ih (normStep out c) (curDir_not_mem_normStep out c h)

theorem rootDir_not_mem_normStep (out : List Component) (c : Component)
    (h : Component.rootDir ∉ out) (hc : c ≠ Component.rootDir) :
    Component.rootDir ∉ normStep out c := by
  cases c with
  | rootDir => exact absurd rfl hc
  | curDir => exact h
  | normal s =>
    simp only [normStep, pathPush]
    intro hmem
    rcases List.mem_append.mp hmem with h1 | h1
    · exact h h1
    · simp at h1
  | parentDir =>
    cases hpl : out.getLast? with
    | none =>
      simp only [normStep, hpl, pathPush]
      intro hmem
      rcases List.mem_append.mp hmem with h1 | h1
      · exact h h1
      · simp at h1
    | some x =>
      cases x with
      | normal s =>
        simp only [normStep, hpl]
        intro hmem
        exact h ((List.dropLast_sublist out).subset hmem)
      | rootDir =>
        simp only [normStep, hpl, pathPush]
        intro hmem
        rcases List.mem_append.mp hmem with h1 | h1
        · exact h h1
        · simp at h1
      | curDir =>
        simp only [normStep, hpl, pathPush]
        intro hmem
        rcases List.mem_append.mp hmem with h1 | h1
        · exact h h1
        · simp at h1
      | parentDir =>
        simp only [normStep, hpl, pathPush]
        intro hmem
        rcases List.mem_append.mp hmem with h1 | h1
        · exact h h1
        · simp at h1

theorem rootDir_not_mem_foldl : ∀ (cs out : List Component),
    Component.rootDir ∉ cs → Component.rootDir ∉ out →
    Component.rootDir ∉ List.foldl normStep out cs := by
  intro cs
  induction cs with
  | nil => intro out _ h; exact h
  | cons c cs ih =>
    intro out hcs h
    have hc : c ≠ Component.rootDir := fun hh => hcs (by simp [hh])
    rw [List.foldl_cons]
    exact ih (normStep out c) (fun hh => hcs (List.mem_cons_of_mem c hh))
      (rootDir_not_mem_normStep out c h hc)

/-- Claim C5: `normalize` drops every `.` component, resolves each `..`
by popping the immediately preceding component exactly when that
component is a normal one and pushes the `..` through verbatim
otherwise; consequently no `.` survives, a leading run of `..`
components is preserved verbatim, and a relative input (one without a
root component) never becomes absolute. -/
theorem normalize_spec (cs out : List Component) (s : String) (n : Nat) :
    normStep out Component.curDir = out ∧
      normStep out (Component.normal s) = out ++ [Component.normal s] ∧
      ((∃ t, out.getLast? = some (Component.normal t)) →
        normStep out Component.parentDir = out.dropLast) ∧
      (¬ (∃ t, out.getLast? = some (Component.normal t)) →
        normStep out Component.parentDir = out ++ [Component.parentDir]) ∧
      Component.curDir ∉ normalizePath cs ∧
      (Component.rootDir ∉ cs → Component.rootDir ∉ normalizePath cs) ∧
      (Component.rootDir ∉ cs →
        normalizePath (List.replicate n Component.parentDir ++ cs) =
          List.replicate n Component.parentDir ++ normalizePath cs) := by
  refine ⟨rfl, rfl, ?_, ?_, ?_, ?_, ?_⟩
  · rintro ⟨t, ht⟩
    simp [normStep, ht]
  · intro hn
    cases hpl : out.getLast? with
    | none => simp [normStep, hpl, pathPush]
    | some x =>
      cases x with
      | normal t => exact absurd ⟨t, hpl⟩ hn
      | rootDir => simp [normStep, hpl, pathPush]
      | curDir => simp [normStep, hpl, pathPush]
      | parentDir => simp [normStep, hpl, pathPush]
  · exact curDir_not_mem_foldl cs [] (by simp)
  · intro hcs
    exact rootDir_not_mem_foldl cs [] hcs (by simp)
  · intro hcs
    unfold normalizePath
    rw [List.foldl_append,
      foldl_normStep_replicate n [] (by simp),
      List.nil_append]
    have := foldl_normStep_pre cs (List.replicate n Component.parentDir) []
      (fun x hx => List.eq_of_mem_replicate hx) hcs
    rw [List.append_nil] at this
    exact this

/-- Witness for C5: a concrete relative input with a leading `..` run:
the two leading parent components are preserved verbatim in front of the
normalization of the remainder. -/
theorem normalize_spec_witness :
    Component.rootDir ∉
        ([Component.curDir, Component.normal "a"] : List Component) ∧
      normalizePath (List.replicate 2 Component.parentDir ++
          [Component.curDir, Component.normal "a"]) =
        List.replicate 2 Component.parentDir ++
          normalizePath [Component.curDir, Component.normal "a"] :=
  ⟨by decide,
    (normalize_spec [Component.curDir, Component.normal "a"] [] "a" 2).2.2.2.2.2.2
      (by decide)⟩

theorem font_cell_some (env : Env) (w : SystemWorld) (i : Nat) (v : Option Nat)
    (h : i < w.fonts.length) (hc : (w.fonts[i]).cell = some v) :
    font env w i = (RustResult.ok v, w, 0) := by
  unfold font
  rw [dif_pos h]
  simp [hc]

theorem font_cell_none (env : Env) (w : SystemWorld) (i : Nat)
    (h : i < w.fonts.length) (hc : (w.fonts[i]).cell = none) :
    font env w i =
      (RustResult.ok (decodeSlot env w.fonts[i]),
        { w with
            fonts := w.fonts.set i
              { w.fonts[i] with cell := some (decodeSlot env w.fonts[i]) } },
        1) := by
  unfold font
  rw [dif_pos h]
  simp [hc]

theorem cellAt_lt (w : SystemWorld) (i : Nat) (h : i < w.fonts.length) :
    cellAt w i = (w.fonts[i]).cell := by
  simp [cellAt, List.getElem?_eq_getElem h]

theorem cellAt_ge (w : SystemWorld) (i : Nat) (h : w.fonts.length ≤ i) :
    cellAt w i = none := by
  simp [cellAt, List.getElem?_eq_none_iff.mpr h]

theorem cellAt_font_ne (env : Env) (w : SystemWorld) (i j : Nat)
    (hij : j ≠ i) : cellAt (font env w j).2.1 i = cellAt w i := by
  by_cases hlt : j < w.fonts.length
  · cases hc : (w.fonts[j]).cell with
    | some v => rw [font_cell_some env w j v hlt hc]
    | none =>
      rw [font_cell_none env w j hlt hc]
      simp [cellAt, List.getElem?_set_ne hij]
  · unfold font
    rw [dif_neg hlt]

theorem font_of_cellAt_some (env : Env) (w : SystemWorld) (i : Nat)
    (v : Option Nat) (hc : cellAt w i = some v) :
    font env w i = (RustResult.ok v, w, 0) := by
  by_cases hlt : i < w.fonts.length
  · exact font_cell_some env w i v hlt ((cellAt_lt w i hlt).symm.trans hc)
  · rw [cellAt_ge w i (by omega)] at hc
    cases hc


theorem font_oob (env : Env) (w : SystemWorld) (j : Nat)
    (hlt : ¬ j < w.fonts.length) :
    font env w j = (RustResult.panicked "index out of bounds", w, 0) := by
  unfold font
  rw [dif_neg hlt]

theorem readsAt_le_one (env : Env) (i : Nat) : ∀ (calls : List Nat)
    (w : SystemWorld),
    readsAt env i w calls ≤ 1 ∧
      (cellAt w i ≠ none → readsAt env i w calls = 0) := by
  intro calls
  induction calls with
  | nil => intro w; exact ⟨by simp [readsAt], fun _ => by simp [readsAt]⟩
  | cons j js ih =>
    intro w
    by_cases hij : j = i
    · subst hij
      by_cases hfill : cellAt w j = none
      · by_cases hlt : j < w.fonts.length
        · have hcc : (w.fonts[j]).cell = none := by
            rw [← cellAt_lt w j hlt]; exact hfill
          have hf := font_cell_none env w j hlt hcc
          have hfilled : cellAt (font env w j).2.1 j ≠ none := by
            rw [hf]
            simp [cellAt, List.getElem?_set_self hlt]
          have h2 := (ih (font env w j).2.1).2 hfilled
          rw [hf] at h2
          constructor
          · simp [readsAt, hf, h2]
          · intro hne
            exact absurd hfill hne
        · have hf := font_oob env w j hlt
          have h1 := (ih w).1
          constructor
          · simpa [readsAt, hf] using h1
          · intro hne
            exact absurd hfill hne
      · rcases Option.ne_none_iff_exists.mp hfill with ⟨v, hv⟩
        have hfo := font_of_cellAt_some env w j v hv.symm
        have h2 := (ih w).2 hfill
        have hz : readsAt env j w (j :: js) = 0 := by
          simp [readsAt, hfo, h2]
        exact ⟨by omega, fun _ => hz⟩
    · have hpres := cellAt_font_ne env w i j hij
      have h1 := (ih (font env w j).2.1).1
      constructor
      · simpa [readsAt, hij] using h1
      · intro hne
        have h2 := (ih (font env w j).2.1).2 (by rw [hpres]; exact hne)
        simpa [readsAt, hij] using h2

/-- Claim C6: lazy font decoding is memoized per catalog index: for a
valid index, a second call right after a first returns the same result
and the same world while performing no file read; any single call
performs at most one read; and across an arbitrary sequence of `font`
calls, at most one read is ever performed on behalf of a given index (so
a decode failure is cached and never retried, and a decode success is
returned to every later caller without re-reading the file). -/
theorem font_memoized (env : Env) (w : SystemWorld) (i : Nat)
    (calls : List Nat) (h : i < w.fonts.length) :
    (font env (font env w i).2.1 i).1 = (font env w i).1 ∧
      (font env (font env w i).2.1 i).2.1 = (font env w i).2.1 ∧
      (font env (font env w i).2.1 i).2.2 = 0 ∧
      (font env w i).2.2 ≤ 1 ∧
      readsAt env i w calls ≤ 1 := by
  have hseq := (readsAt_le_one env i calls w).1
  cases hc : (w.fonts[i]).cell with
  | some v =>
    have hf := font_cell_some env w i v h hc
    refine ⟨?_, ?_, ?_, ?_, hseq⟩ <;> simp [hf]
  | none =>
    have hf := font_cell_none env w i h hc
    have hfilled : cellAt (font env w i).2.1 i ≠ none := by
      rw [hf]
      simp [cellAt, List.getElem?_set_self h]
    rcases Option.ne_none_iff_exists.mp hfilled with ⟨v2, hv2⟩
    have hf2 := font_of_cellAt_some env (font env w i).2.1 i v2 hv2.symm
    have hval : v2 = decodeSlot env w.fonts[i] := by
      have : cellAt (font env w i).2.1 i = some (decodeSlot env w.fonts[i]) := by
        rw [hf]
        simp [cellAt, List.getElem?_set_self h]
      exact Option.some.inj (hv2.trans this)
    refine ⟨?_, ?_, ?_, ?_, hseq⟩
    · rw [hf2, hf, hval]
    · rw [hf2]
    · rw [hf2]
    · simp [hf]

/-- Witness for C6: on a world with one undecoded slot and an
environment whose read succeeds, the memoization properties hold at
index 0 for the call sequence [0, 0]. -/
theorem font_memoized_witness :
    (font envFont (font envFont wFont 0).2.1 0).1 = (font envFont wFont 0).1 ∧
      (font envFont (font envFont wFont 0).2.1 0).2.1 =
        (font envFont wFont 0).2.1 ∧
      (font envFont (font envFont wFont 0).2.1 0).2.2 = 0 ∧
      (font envFont wFont 0).2.2 ≤ 1 ∧
      readsAt envFont 0 wFont [0, 0] ≤ 1 :=
  font_memoized envFont wFont 0 [0, 0] (by decide)
